import Mathlib

/-!
Verification of the chunked recording-and-reassembly pipeline of the
`audio-recorder.bs.js` Nuxt module.

The development is a shallow embedding of the relevant source files:

* `src/runtime/services/db.ts`, class `AudioStorageService` (Dexie-backed
  session store over the tables `audioChunks` and `audioSessions`);
* `src/runtime/composables/useFFmpeg.ts` (`pcmToMp3`, `concatMp3`);
* `src/runtime/composables/useAudioRecording.ts` and
  `src/runtime/composables/audioRecoding.ts` (`stopRecording`,
  `abortRecording`).

Modelling conventions:

* A Dexie table is a list of rows in insertion order; `add` appends a row.
  Primary-key uniqueness is supplied by `generateId` (a
  `Date.now()`-plus-randomness string) and is carried as a hypothesis where a
  proof needs it rather than enforced by the embedding.
* An IndexedDB index query (`where(...).equals/aboveOrEqual(...)`) returns its
  rows sorted by the index key and, within equal index keys, by primary key;
  this retrieval order is modelled with `List.insertionSort`.
* A Dexie `"rw"` transaction commits all of its writes or none: an aborted
  transaction rolls back, which the embedding renders as returning the
  pre-transaction state unchanged.
* `Float32Array` payloads are abstracted to `List Int` (one entry per sample);
  `floats.length` is the sample count used for `totalSize`.
* A rejected promise is an `Except.error`; a `.catch`-absorbed rejection keeps
  the previous state.
-/

namespace AudioRecorder

/-- Row of the `audioChunks` table (`db.ts`, interface `AudioChunk`). -/
structure AudioChunk where
  id : String
  sessionId : String
  createdAt : String
  floats : List Int
  deriving DecidableEq

/-- Row of the `audioSessions` table (`db.ts`, interface `AudioSession`). -/
structure AudioSession where
  id : String
  name : String
  createdAt : String
  chunkCount : Nat
  totalSize : Nat
  chunkIds : List String
  sampleRate : Nat
  numChannels : Nat
  deriving DecidableEq

/-- The two tables of `AudioRecorderDB`, each in row-insertion order. -/
structure DBState where
  audioChunks : List AudioChunk
  audioSessions : List AudioSession
  deriving DecidableEq

/-- The freshly opened database: both tables empty. -/
def emptyDB : DBState := ⟨[], []⟩

/-- The IndexedDB order on string keys (code-unit comparison), modelled as
the lexicographic order on the character data; the keys at play (`generateId`
output and ISO timestamps) are ASCII, where the two orders agree.  Strict
version. -/
def keyLt (s t : String) : Prop := s.data < t.data

/-- The IndexedDB order on string keys, non-strict version. -/
def keyLe (s t : String) : Prop := s.data < t.data ∨ s.data = t.data

instance : DecidableRel keyLt := fun s t => by unfold keyLt; infer_instance

instance : DecidableRel keyLe := fun s t => by unfold keyLe; infer_instance

instance {ε α : Type} [DecidableEq ε] [DecidableEq α] :
    DecidableEq (Except ε α) := fun x y =>
  match x, y with
  | .error e, .error f =>
      if h : e = f then isTrue (by rw [h])
      else isFalse (fun hc => h (by cases hc; rfl))
  | .error _, .ok _ => isFalse (fun hc => Except.noConfusion hc)
  | .ok _, .error _ => isFalse (fun hc => Except.noConfusion hc)
  | .ok a, .ok b =>
      if h : a = b then isTrue (by rw [h])
      else isFalse (fun hc => h (by cases hc; rfl))

/-- The chunk rows belonging to a session, in table (= insertion) order.
`db.audioChunks.where("sessionId").equals(sessionId)` selects exactly these
rows. -/
def chunksOf (st : DBState) (sessionId : String) : List AudioChunk :=
  st.audioChunks.filter (fun c => c.sessionId == sessionId)

/-- `db.audioSessions.get(sessionId)`: primary-key lookup. -/
def findSession (st : DBState) (sessionId : String) : Option AudioSession :=
  st.audioSessions.find? (fun s => s.id == sessionId)

/-- `AudioStorageService.createSession`: inserts a session row with zeroed
counters and empty chunk list.  `id` and `now` stand for the values produced
by `generateId()` and `new Date(Date.now()).toISOString()`. -/
def createSession (st : DBState) (id nm now : String)
    (sampleRate numChannels : Nat) : DBState :=
  { st with audioSessions :=
      st.audioSessions ++ [⟨id, nm, now, 0, 0, [], sampleRate, numChannels⟩] }

/-- `AudioStorageService.storeAudioChunk`: looks the session up first and
rejects with `Session with ID ... not found` when it is absent, before any
write; otherwise, inside one `rw` transaction over both tables, inserts the
chunk row and puts back the session with `chunkCount + 1`,
`totalSize + floats.length` and `chunkIds ++ [id]`.  `id` and `now` stand for
`generateId()` and `new Date().toISOString()`. -/
def storeAudioChunk (st : DBState) (sessionId : String) (floats : List Int)
    (id now : String) : Except String (DBState × String) :=
  match findSession st sessionId with
  | none => .error ("Session with ID " ++ sessionId ++ " not found")
  | some session =>
      let chunk : AudioChunk := ⟨id, sessionId, now, floats⟩
      let updated : AudioSession :=
        { session with
            chunkCount := session.chunkCount + 1
            totalSize := session.totalSize + floats.length
            chunkIds := session.chunkIds ++ [id] }
      .ok ({ audioChunks := st.audioChunks ++ [chunk],
             audioSessions := st.audioSessions.map
               (fun s => if s.id == updated.id then updated else s) }, id)

/-- One `storeAudioChunk` call as issued by the orchestrator: the session id,
the payload, the generated chunk id and timestamp, and whether the `rw`
transaction commits (`txOk = false` models a transaction failure, which Dexie
rolls back). -/
structure AppendCall where
  sessionId : String
  floats : List Int
  id : String
  now : String
  txOk : Bool
  deriving DecidableEq

/-- Effect of one `storeAudioChunk` call on the committed database state.  A
failed transaction is rolled back and a rejected call (session not found)
leaves the state unchanged; the caller (`appendMp3`) absorbs the rejection
with `.catch`. -/
def runAppend (st : DBState) (c : AppendCall) : DBState :=
  if c.txOk then
    match storeAudioChunk st c.sessionId c.floats c.id c.now with
    | .ok (st', _) => st'
    | .error _ => st
  else st

/-- Effect of a sequence of `storeAudioChunk` calls, issued and awaited
sequentially. -/
def runAppends (st : DBState) (calls : List AppendCall) : DBState :=
  calls.foldl runAppend st

/-- The spec's session-counter invariant: every session row has
`chunkCount == len(chunkIds)` and `totalSize` equal to the sum of the sizes of
its stored chunks. -/
def sessionInv (st : DBState) : Prop :=
  ∀ s ∈ st.audioSessions,
    s.chunkCount = s.chunkIds.length ∧
    s.totalSize = ((chunksOf st s.id).map (fun c => c.floats.length)).sum

instance (st : DBState) : Decidable (sessionInv st) := by
  unfold sessionInv; infer_instance

/-- `AudioStorageService.getSessionChunks`: index query
`where("sessionId").equals(sessionId).toArray()` (rows sorted by primary key
`id` within the equal index key), then `map (c => c.floats)`. -/
def getSessionChunks (st : DBState) (sessionId : String) : List (List Int) :=
  (List.insertionSort (fun a b => keyLe a.id b.id) (chunksOf st sessionId)).map
    (fun c => c.floats)

/-- `AudioStorageService.getAllSessions`: index query
`where("chunkCount").aboveOrEqual(1).toArray()`, rows sorted by the
`chunkCount` index key and then by primary key. -/
def getAllSessions (st : DBState) : List AudioSession :=
  List.insertionSort
    (fun a b => a.chunkCount < b.chunkCount ∨
      (a.chunkCount = b.chunkCount ∧ keyLe a.id b.id))
    (st.audioSessions.filter (fun s => 1 ≤ s.chunkCount))

/-- `AudioStorageService.deleteSession`: rejects when the session is absent;
otherwise, in one `rw` transaction, deletes every chunk row whose `sessionId`
matches and then the session row itself. -/
def deleteSession (st : DBState) (sessionId : String) : Except String DBState :=
  match findSession st sessionId with
  | none => .error ("Session with ID " ++ sessionId ++ " not found")
  | some _ =>
      .ok { audioChunks := st.audioChunks.filter
              (fun c => ¬ c.sessionId == sessionId),
            audioSessions := st.audioSessions.filter
              (fun s => ¬ s.id == sessionId) }

/-- `AudioStorageService.clearSessionsOlderThan`: collects every session row
with `createdAt` below the cutoff ISO timestamp (string comparison on the
`createdAt` index) and deletes each in turn via `deleteSession`; a rejection
from `deleteSession` propagates out of the loop. -/
def clearSessionsOlderThan (st : DBState) (cutoffIso : String) :
    Except String DBState :=
  (st.audioSessions.filter (fun s => keyLt s.createdAt cutoffIso)).foldlM
    (fun acc sess => deleteSession acc sess.id) st

/-! FFmpeg adapter (`useFFmpeg.ts`).  The engine is observed through the
operations the adapter issues against its virtual file system; a run of
`pcmToMp3` or `concatMp3` is the pair of that operation trace and the
settled result.  The Booleans `loadOk`, `writeOk`, `execOk` select the branch
on which the corresponding engine call resolves or rejects; `deleteOk` gives
the outcome of each individual `deleteFile` attempt (each attempt sits in its
own `try {} catch {}`); `engineOut` stands for the bytes the engine leaves in
`output.mp3` on success. -/

/-- One engine call issued by the adapter.  `delete` records the attempt
together with that attempt's own outcome. -/
inductive FSOp where
  | write (fname : String)
  | exec (args : List String)
  | read (fname : String)
  | delete (fname : String) (ok : Bool)
  deriving DecidableEq

/-- The argument vector `pcmToMp3` passes to `ffmpeg.exec`: input format
`f32le` at the caller's `sampleRate`/`numChannels`, output encoded with
`libmp3lame` at `64k` and a `16000` Hz output sample rate. -/
def pcmToMp3Args (sampleRate numChannels : Nat) : List String :=
  ["-f", "f32le", "-ar", toString sampleRate, "-ac", toString numChannels,
   "-i", "input.pcm", "-codec:a", "libmp3lame", "-b:a", "64k",
   "-ar", "16000", "output.mp3"]

/-- The argument vector `concatMp3` passes to `ffmpeg.exec` for the
multi-file path: the concat demuxer over `files.txt`, re-encoded with
`libmp3lame`. -/
def concatMp3Args : List String :=
  ["-f", "concat", "-safe", "0", "-i", "files.txt",
   "-codec:a", "libmp3lame", "-write_xing", "1", "output.mp3"]

/-- Run of `pcmToMp3`: `ffmpeg.load()` (outside the `try`), then inside
`try`: write `input.pcm`, exec, read `output.mp3`; the `finally` block
attempts to delete `input.pcm` and `output.mp3`, each in its own
`try {} catch {}`, and any error from the `try` body propagates to the
caller after those attempts. -/
def pcmToMp3Run (sampleRate numChannels : Nat) (loadOk writeOk execOk : Bool)
    (deleteOk : String → Bool) (engineOut : List Nat) :
    List FSOp × Except String (List Nat) :=
  if ¬ loadOk then ([], .error "FFmpeg load failed")
  else
    let cleanup : List FSOp :=
      [.delete "input.pcm" (deleteOk "input.pcm"),
       .delete "output.mp3" (deleteOk "output.mp3")]
    if ¬ writeOk then (cleanup, .error "writeFile rejected")
    else if ¬ execOk then
      ([.write "input.pcm", .exec (pcmToMp3Args sampleRate numChannels)] ++
         cleanup, .error "ffmpeg exec rejected")
    else
      ([.write "input.pcm", .exec (pcmToMp3Args sampleRate numChannels),
        .read "output.mp3"] ++ cleanup, .ok engineOut)

/-- The temporary input file names `concatMp3` writes for `n` buffers:
`input0.mp3`, `input1.mp3`, ... -/
def concatInputNames (n : Nat) : List String :=
  (List.range n).map (fun i => "input" ++ toString i ++ ".mp3")

/-- Run of `concatMp3` on byte buffers.  Zero buffers reject immediately; a
single buffer is returned re-wrapped as a Blob of the same bytes without
touching the engine at all; otherwise `load`, write every `inputN.mp3` and
`files.txt`, exec the concat command, read `output.mp3`, and in `finally`
attempt to delete every input name, `files.txt` and `output.mp3`, each
attempt in its own `try {} catch {}`, errors from the body propagating
afterwards. -/
def concatMp3Run (mp3Buffers : List (List Nat)) (loadOk execOk : Bool)
    (deleteOk : String → Bool) (engineOut : List Nat) :
    List FSOp × Except String (List Nat) :=
  match mp3Buffers with
  | [] => ([], .error "No MP3 blobs provided")
  | [b] => ([], .ok b)
  | _ =>
    if ¬ loadOk then ([], .error "FFmpeg load failed")
    else
      let inputFiles := concatInputNames mp3Buffers.length
      let writes := inputFiles.map .write ++ [.write "files.txt"]
      let cleanup := inputFiles.map (fun f => FSOp.delete f (deleteOk f)) ++
        [.delete "files.txt" (deleteOk "files.txt"),
         .delete "output.mp3" (deleteOk "output.mp3")]
      if ¬ execOk then
        (writes ++ [.exec concatMp3Args] ++ cleanup,
         .error "ffmpeg exec rejected")
      else
        (writes ++ [.exec concatMp3Args, .read "output.mp3"] ++ cleanup,
         .ok engineOut)

/-! Recording orchestrator (`useAudioRecording.ts`).  Only the pieces the
claims are about are embedded: the resource/cleanup shape of
`abortRecording` and the store-level effect of `stopRecording`. -/

/-- Orchestrator state visible to `abortRecording`: whether `pcmRecorder` is
initialized, the `isRecording` flag, whether the recording timer is running,
and the persisted session store. -/
structure RecorderState where
  pcmRecorder : Bool
  isRecording : Bool
  timerRunning : Bool
  store : DBState
  deriving DecidableEq

/-- `abortRecording` of `useAudioRecording.ts` lines 501-520: when
`pcmRecorder` is undefined it logs and returns; otherwise it clears
`isRecording`, awaits `pcmRecorder.stop()` (whose failure is caught by the
surrounding `try {} catch {}`, leaving the recorder reference and timer as
they were at that point), then clears the reference and stops the timer.  It
never touches the session store. -/
def abortRecording (st : RecorderState) (stopOk : Bool) : RecorderState :=
  if ¬ st.pcmRecorder then st
  else if stopOk then
    { st with isRecording := false, pcmRecorder := false,
              timerRunning := false }
  else { st with isRecording := false }

/-- `abortRecording` of `useAudioRecording.ts` lines 223-239 (and, with the
same shape over `source`/`pcmWorklet`/`stream`/`audioContext`, of
`audioRecoding.ts` lines 497-536): when the recorder resources are undefined
it throws `Error("invalid state")`; otherwise it releases them (a failure of
`pcmRecorder.stop()` would propagate, there being no `try`). -/
def abortRecordingStrict (st : RecorderState) : Except String RecorderState :=
  if ¬ st.pcmRecorder then .error "invalid state"
  else .ok { st with isRecording := false, pcmRecorder := false,
                     timerRunning := false }

/-- Store-level effect of `stopRecording` (`useAudioRecording.ts` lines
470-499): a final `appendMp3` flush (its `storeAudioChunk` rejection is
absorbed by `.catch`), `abortRecording` (no store effect), then
`getSession` — throwing if the session is gone — `getSessionChunks`,
`concatMp3` (`concatOk` selects whether it resolves), and only on its
success `deleteSession`.  Returns the resulting store and whether the stop
completed. -/
def stopRecordingStore (store : DBState) (flush : AppendCall)
    (concatOk : Bool) : DBState × Bool :=
  let store1 := runAppend store flush
  match findSession store1 flush.sessionId with
  | none => (store1, false)
  | some _ =>
      if concatOk then
        match deleteSession store1 flush.sessionId with
        | .ok store2 => (store2, true)
        | .error _ => (store1, false)
      else (store1, false)

/-! Concrete example states used by witnesses and counterexamples. -/

/-- Example: a store holding the single session `A`, created at 48 kHz mono,
with no chunks yet. -/
def storeA : DBState :=
  createSession emptyDB "A" "recording A" "2025-01-01T00:00:00.000Z" 48000 1

/-- Example: two chunks of session `A` stored within the same millisecond
(`Date.now() = 100`), whose random id suffixes (`b`, then `a`) sort against
their append order. -/
def sameMsStore : DBState :=
  runAppends storeA
    [⟨"A", [1], "100-b", "2025-01-01T00:00:01.000Z", true⟩,
     ⟨"A", [2], "100-a", "2025-01-01T00:00:02.000Z", true⟩]

/-- Example: two chunks of session `A` stored in distinct milliseconds, ids
in increasing order. -/
def twoChunkStore : DBState :=
  runAppends storeA
    [⟨"A", [1], "1735689600000-aaa", "2025-01-01T00:00:01.000Z", true⟩,
     ⟨"A", [2, 3], "1735689630000-bbb", "2025-01-01T00:00:31.000Z", true⟩]

/-- Example: a store holding one session with zero chunks, created long
before the retention cutoff. -/
def zeroChunkOldStore : DBState :=
  createSession emptyDB "old0" "stale" "2020-01-01T00:00:00.000Z" 44100 1

/-- Example retention cutoff timestamp. -/
def cutoff2024 : String := "2024-01-01T00:00:00.000Z"

/-- Example: an idle orchestrator — no recorder initialized, nothing
recording. -/
def idleRecorder : RecorderState := ⟨false, false, false, storeA⟩

/-! Helper lemmas about the store embedding. -/

theorem findSession_mem {st : DBState} {sid : String} {s : AudioSession}
    (h : findSession st sid = some s) : s ∈ st.audioSessions ∧ s.id = sid := by
  unfold findSession at h
  refine ⟨List.mem_of_find?_eq_some h, ?_⟩
  simpa [beq_iff_eq] using List.find?_some h

theorem findSession_eq_none {st : DBState} {sid : String}
    (h : ∀ s ∈ st.audioSessions, s.id ≠ sid) : findSession st sid = none := by
  unfold findSession
  rw [List.find?_eq_none]
  intro s hs
  simpa using h s hs

theorem storeAudioChunk_eq_of_find {st : DBState} {sid : String}
    {session : AudioSession} (hf : findSession st sid = some session)
    (floats : List Int) (cid now : String) :
    storeAudioChunk st sid floats cid now = .ok (
      { audioChunks := st.audioChunks ++ [⟨cid, sid, now, floats⟩],
        audioSessions := st.audioSessions.map (fun s =>
          if s.id == session.id then
            { session with chunkCount := session.chunkCount + 1,
                           totalSize := session.totalSize + floats.length,
                           chunkIds := session.chunkIds ++ [cid] }
          else s) }, cid) := by
  unfold storeAudioChunk
  rw [hf]

theorem sessionInv_newState {st : DBState} {sid cid now : String}
    {session : AudioSession} (hf : findSession st sid = some session)
    (h : sessionInv st) (floats : List Int) :
    sessionInv
      { audioChunks := st.audioChunks ++ [⟨cid, sid, now, floats⟩],
        audioSessions := st.audioSessions.map (fun s =>
          if s.id == session.id then
            { session with chunkCount := session.chunkCount + 1,
                           totalSize := session.totalSize + floats.length,
                           chunkIds := session.chunkIds ++ [cid] }
          else s) } := by
  obtain ⟨hmem, hid⟩ := findSession_mem hf
  subst hid
  intro s' hs'
  rw [List.mem_map] at hs'
  obtain ⟨s, hs, heq⟩ := hs'
  by_cases hcase : s.id = session.id
  · rw [if_pos (by simpa using hcase)] at heq
    subst heq
    obtain ⟨h1, h2⟩ := h session hmem
    refine ⟨by simp [h1], ?_⟩
    show session.totalSize + floats.length = _
    simp only [chunksOf, List.filter_append]
    simp [h2, chunksOf]
  · rw [if_neg (by simpa using hcase)] at heq
    subst heq
    obtain ⟨h1, h2⟩ := h s hs
    refine ⟨h1, ?_⟩
    have hne : session.id ≠ s.id := fun hh => hcase hh.symm
    simp only [chunksOf, List.filter_append]
    simp [hne, h2, chunksOf]

theorem sessionInv_storeOk {st st' : DBState} {sid cid now rid : String}
    {floats : List Int} (h : sessionInv st)
    (hok : storeAudioChunk st sid floats cid now = .ok (st', rid)) :
    sessionInv st' := by
  cases hf : findSession st sid with
  | none => rw [storeAudioChunk, hf] at hok; exact absurd hok (by simp)
  | some session =>
    rw [storeAudioChunk_eq_of_find hf floats cid now] at hok
    have hpair := Except.ok.inj hok
    have hst := congrArg Prod.fst hpair
    dsimp only at hst
    rw [← hst]
    exact sessionInv_newState hf h floats

theorem sessionInv_runAppend (st : DBState) (c : AppendCall)
    (h : sessionInv st) : sessionInv (runAppend st c) := by
  unfold runAppend
  by_cases htx : c.txOk
  · rw [if_pos htx]
    cases hres : storeAudioChunk st c.sessionId c.floats c.id c.now with
    | ok p =>
        obtain ⟨st', rid⟩ := p
        exact sessionInv_storeOk h hres
    | error e => exact h
  · rw [if_neg htx]
    exact h

theorem sessionInv_runAppends (st : DBState) (calls : List AppendCall)
    (h : sessionInv st) : sessionInv (runAppends st calls) := by
  induction calls generalizing st with
  | nil => exact h
  | cons c cs ih => exact ih _ (sessionInv_runAppend st c h)

/-- C1: starting from a store satisfying the counter invariant, every
sequence of `storeAudioChunk` calls preserves it — after each call (any
prefix of the sequence being itself such a sequence) every session row has
`chunkCount` equal to the length of its `chunkIds` and `totalSize` equal to
the sum of the sizes of its stored chunks — and a call whose single `rw`
transaction fails is rolled back, leaving the committed state exactly
unchanged (no partial increment). -/
theorem append_chunk_invariant (st : DBState) (calls : List AppendCall)
    (h : sessionInv st) :
    sessionInv (runAppends st calls) ∧
    (∀ c : AppendCall, c.txOk = false →
      runAppend (runAppends st calls) c = runAppends st calls) := by
  refine ⟨sessionInv_runAppends st calls h, ?_⟩
  intro c hc
  unfold runAppend
  rw [hc]
  rfl

/-- Witness for C1 at a concrete store: session `A` with two chunks appended,
plus the rolled-back call leaving the state unchanged. -/
theorem append_chunk_invariant_witness :
    sessionInv (runAppends storeA
      [⟨"A", [1], "100-b", "2025-01-01T00:00:01.000Z", true⟩,
       ⟨"A", [2], "100-a", "2025-01-01T00:00:02.000Z", true⟩]) ∧
    (∀ c : AppendCall, c.txOk = false →
      runAppend (runAppends storeA
        [⟨"A", [1], "100-b", "2025-01-01T00:00:01.000Z", true⟩,
         ⟨"A", [2], "100-a", "2025-01-01T00:00:02.000Z", true⟩]) c =
      runAppends storeA
        [⟨"A", [1], "100-b", "2025-01-01T00:00:01.000Z", true⟩,
         ⟨"A", [2], "100-a", "2025-01-01T00:00:02.000Z", true⟩]) :=
  append_chunk_invariant storeA
    [⟨"A", [1], "100-b", "2025-01-01T00:00:01.000Z", true⟩,
     ⟨"A", [2], "100-a", "2025-01-01T00:00:02.000Z", true⟩] (by decide)

/-- C6: `storeAudioChunk` against a session id not present in the store
rejects with the session-not-found error before any write, and the committed
state is unchanged. -/
theorem append_missing_session_rejected (st : DBState) (sessionId : String)
    (floats : List Int) (id now : String)
    (h : ∀ s ∈ st.audioSessions, s.id ≠ sessionId) :
    storeAudioChunk st sessionId floats id now =
      .error ("Session with ID " ++ sessionId ++ " not found") ∧
    runAppend st ⟨sessionId, floats, id, now, true⟩ = st := by
  have hf := findSession_eq_none h
  constructor
  · rw [storeAudioChunk, hf]
  · simp [runAppend, storeAudioChunk, hf]

/-- Witness for C6, the spec's Scenario C: `createSession` made session `A`;
an append to the absent id `B` rejects and leaves `A`'s row untouched. -/
theorem append_missing_session_rejected_witness :
    storeAudioChunk storeA "B" [1, 2] "101-zzz" "2025-01-01T00:00:03.000Z" =
      .error ("Session with ID " ++ "B" ++ " not found") ∧
    runAppend storeA ⟨"B", [1, 2], "101-zzz", "2025-01-01T00:00:03.000Z",
      true⟩ = storeA :=
  append_missing_session_rejected storeA "B" [1, 2] "101-zzz"
    "2025-01-01T00:00:03.000Z" (by decide)

/-- C7: `getAllSessions` returns exactly the recoverable sessions — a
session row is in the result precisely when it is stored and has
`chunkCount ≥ 1`; so a zero-chunk session never appears, and a session with
at least one chunk appears for as long as its row is in the table. -/
theorem recoverable_sessions_iff (st : DBState) (s : AudioSession) :
    s ∈ getAllSessions st ↔ s ∈ st.audioSessions ∧ 1 ≤ s.chunkCount := by
  unfold getAllSessions
  rw [List.mem_insertionSort, List.mem_filter]
  simp

/-- C2 counterexample: two chunks of session `A` appended within the same
millisecond get ids `100-b` then `100-a`, and `getSessionChunks` returns
their payloads in primary-key order `[[2], [1]]` — not in the append order
`[[1], [2]]` in which the rows entered the table. -/
theorem chunk_order_counterexample :
    getSessionChunks sameMsStore "A" = [[2], [1]] ∧
    (chunksOf sameMsStore "A").map (fun c => c.floats) = [[1], [2]] ∧
    getSessionChunks sameMsStore "A" ≠
      (chunksOf sameMsStore "A").map (fun c => c.floats) := by
  decide

/-- C2 amended: `getSessionChunks` queries by the `sessionId` relation and
returns the chunk payloads sorted by the IndexedDB primary-key order on
chunk ids, while each successful `storeAudioChunk` inserts its row at the
end of the table; so whenever a session's chunk ids are in increasing key
order — as for `generateId` ids minted in distinct milliseconds — the
payloads come back in exactly append order, for any number of chunks. -/
theorem chunk_order_by_key (st : DBState) (sid : String)
    (hsorted : (chunksOf st sid).Sorted (fun a b => keyLe a.id b.id)) :
    getSessionChunks st sid = (chunksOf st sid).map (fun c => c.floats) ∧
    (∀ (c : AppendCall) (st' : DBState) (rid : String),
      storeAudioChunk st c.sessionId c.floats c.id c.now = .ok (st', rid) →
      st'.audioChunks = st.audioChunks ++
        [⟨c.id, c.sessionId, c.now, c.floats⟩]) := by
  constructor
  · unfold getSessionChunks
    rw [List.Sorted.insertionSort_eq hsorted]
  · intro c st' rid hok
    cases hf : findSession st c.sessionId with
    | none => rw [storeAudioChunk, hf] at hok; exact absurd hok (by simp)
    | some session =>
      rw [storeAudioChunk_eq_of_find hf c.floats c.id c.now] at hok
      have hst := congrArg Prod.fst (Except.ok.inj hok)
      dsimp only at hst
      rw [← hst]

/-- Witness for the amended C2 at a concrete store: two chunks of session
`A` minted in distinct milliseconds come back in append order. -/
theorem chunk_order_by_key_witness :
    getSessionChunks twoChunkStore "A" =
      (chunksOf twoChunkStore "A").map (fun c => c.floats) ∧
    getSessionChunks twoChunkStore "A" = [[1], [2, 3]] :=
  ⟨(chunk_order_by_key twoChunkStore "A" (by decide)).1, by decide⟩

/-! Helper lemmas for `deleteSession` loops. -/

theorem findSession_isSome {st : DBState} {sid : String}
    (h : ∃ s ∈ st.audioSessions, s.id = sid) :
    ∃ session, findSession st sid = some session := by
  obtain ⟨s, hs, hid⟩ := h
  have hsome : (st.audioSessions.find? (fun t => t.id == sid)).isSome := by
    rw [List.find?_isSome]
    exact ⟨s, hs, by simpa using hid⟩
  obtain ⟨session, hsess⟩ := Option.isSome_iff_exists.mp hsome
  exact ⟨session, hsess⟩

theorem deleteSession_eq_of_find {st : DBState} {sid : String}
    {session : AudioSession} (hf : findSession st sid = some session) :
    deleteSession st sid = .ok
      { audioChunks := st.audioChunks.filter
          (fun c => ¬ c.sessionId == sid),
        audioSessions := st.audioSessions.filter
          (fun s => ¬ s.id == sid) } := by
  rw [deleteSession, hf]

theorem deleteSessions_foldlM (toDel : List AudioSession) (st : DBState)
    (hnd : (toDel.map (fun s => s.id)).Nodup)
    (hmem : ∀ d ∈ toDel, ∃ s ∈ st.audioSessions, s.id = d.id) :
    toDel.foldlM (fun acc sess => deleteSession acc sess.id) st = .ok
      { audioChunks := st.audioChunks.filter
          (fun c => toDel.all (fun d => ¬ c.sessionId == d.id)),
        audioSessions := st.audioSessions.filter
          (fun s => toDel.all (fun d => ¬ s.id == d.id)) } := by
  induction toDel generalizing st with
  | nil => simp; rfl
  | cons d ds ih =>
      obtain ⟨session, hf⟩ := findSession_isSome (hmem d (by simp))
      rw [List.foldlM_cons, deleteSession_eq_of_find hf]
      have hbind : ∀ (x : DBState)
          (g : DBState → Except String DBState),
          (Except.ok x : Except String DBState) >>= g = g x := fun _ _ => rfl
      rw [hbind]
      rw [List.map_cons, List.nodup_cons] at hnd
      obtain ⟨hdni, hnd'⟩ := hnd
      have hmem' : ∀ d' ∈ ds,
          ∃ s ∈ (st.audioSessions.filter
            (fun s => ¬ s.id == d.id)), s.id = d'.id := by
        intro d' hd'
        obtain ⟨s, hsmem, hsid⟩ := hmem d' (by simp [hd'])
        refine ⟨s, ?_, hsid⟩
        rw [List.mem_filter]
        refine ⟨hsmem, ?_⟩
        have hne : d'.id ≠ d.id := by
          intro hc
          exact hdni (by rw [← hc]; exact List.mem_map_of_mem _ hd')
        simp [hsid, hne]
      rw [ih _ hnd' hmem']
      simp only [List.filter_filter, List.all_cons]
      refine congrArg Except.ok ?_
      refine congrArg₂ DBState.mk ?_ ?_
      · refine List.filter_congr ?_
        intro c _
        rw [Bool.and_comm]
      · refine List.filter_congr ?_
        intro s _
        rw [Bool.and_comm]

/-- C3 counterexample: a session with zero chunks — not recoverable — whose
`createdAt` precedes the cutoff is nevertheless deleted by
`clearSessionsOlderThan`, so the eviction does not delete only the
recoverable old sessions. -/
theorem evict_older_deletes_zero_chunk :
    zeroChunkOldStore.audioSessions.map (fun s => s.chunkCount) = [0] ∧
    keyLt "2020-01-01T00:00:00.000Z" cutoff2024 ∧
    clearSessionsOlderThan zeroChunkOldStore cutoff2024 = .ok ⟨[], []⟩ := by
  decide

/-- C3 amended: `clearSessionsOlderThan` deletes, via `deleteSession`,
exactly the sessions — recoverable or not — whose `createdAt` precedes the
cutoff, removing their chunks with them; every session whose `createdAt` is
at or after the cutoff keeps its row (and its chunks) unchanged. -/
theorem evict_older_deletes_by_age (st : DBState) (cutoffIso : String)
    (hids : (st.audioSessions.map (fun s => s.id)).Nodup) :
    clearSessionsOlderThan st cutoffIso = .ok
      { audioChunks := st.audioChunks.filter (fun c =>
          (st.audioSessions.filter
            (fun s => keyLt s.createdAt cutoffIso)).all
              (fun d => ¬ c.sessionId == d.id)),
        audioSessions := st.audioSessions.filter
          (fun s => ¬ keyLt s.createdAt cutoffIso) } := by
  unfold clearSessionsOlderThan
  have hsub : List.Sublist
      ((st.audioSessions.filter
        (fun s => keyLt s.createdAt cutoffIso)).map (fun s => s.id))
      (st.audioSessions.map (fun s => s.id)) :=
    List.Sublist.map _ (List.filter_sublist _)
  have hnd := List.Nodup.sublist hsub hids
  have hmem : ∀ d ∈ st.audioSessions.filter
      (fun s => keyLt s.createdAt cutoffIso),
      ∃ s ∈ st.audioSessions, s.id = d.id := by
    intro d hd
    exact ⟨d, (List.mem_filter.mp hd).1, rfl⟩
  rw [deleteSessions_foldlM _ st hnd hmem]
  refine congrArg Except.ok (congrArg (DBState.mk _) ?_)
  apply List.filter_congr
  intro s hsmem
  by_cases hlt : keyLt s.createdAt cutoffIso
  · have hsin : s ∈ st.audioSessions.filter
        (fun t => keyLt t.createdAt cutoffIso) := by
      rw [List.mem_filter]
      exact ⟨hsmem, by simpa using hlt⟩
    have hall : ((st.audioSessions.filter
        (fun t => keyLt t.createdAt cutoffIso)).all
          (fun d => ¬ s.id == d.id)) = false := by
      rw [List.all_eq_false]
      exact ⟨s, hsin, by simp⟩
    rw [hall]
    simp [hlt]
  · have hall : ((st.audioSessions.filter
        (fun t => keyLt t.createdAt cutoffIso)).all
          (fun d => ¬ s.id == d.id)) = true := by
      rw [List.all_eq_true]
      intro d hd
      obtain ⟨hdmem, hdlt⟩ := List.mem_filter.mp hd
      have hne : s.id ≠ d.id := by
        intro hc
        have hsd : s = d :=
          List.inj_on_of_nodup_map hids hsmem hdmem hc
        rw [hsd] at hlt
        exact hlt (by simpa using hdlt)
      simp [hne]
    rw [hall]
    simp [hlt]

/-- Witness for the amended C3: a store with one stale recoverable session,
one stale empty session and one fresh session; eviction removes exactly the
two stale ones together with their chunks. -/
theorem evict_older_deletes_by_age_witness :
    clearSessionsOlderThan
      ⟨[⟨"91-c", "90-a", "2020-01-02T00:00:01.000Z", [7]⟩],
       [⟨"90-z", "o0", "2020-01-01T00:00:00.000Z", 0, 0, [], 44100, 1⟩,
        ⟨"90-a", "o1", "2020-01-02T00:00:00.000Z", 1, 1, ["91-c"], 44100, 1⟩,
        ⟨"99-b", "new", "2025-01-01T00:00:00.000Z", 0, 0, [], 48000, 1⟩]⟩
      cutoff2024 = .ok
        ⟨[], [⟨"99-b", "new", "2025-01-01T00:00:00.000Z", 0, 0, [],
          48000, 1⟩]⟩ := by
  have h := evict_older_deletes_by_age
    ⟨[⟨"91-c", "90-a", "2020-01-02T00:00:01.000Z", [7]⟩],
     [⟨"90-z", "o0", "2020-01-01T00:00:00.000Z", 0, 0, [], 44100, 1⟩,
      ⟨"90-a", "o1", "2020-01-02T00:00:00.000Z", 1, 1, ["91-c"], 44100, 1⟩,
      ⟨"99-b", "new", "2025-01-01T00:00:00.000Z", 0, 0, [], 48000, 1⟩]⟩
    cutoff2024 (by decide)
  rw [h]
  decide

/-! Helper lemmas about `runAppend` for the orchestrator claims. -/

theorem runAppend_eq_of_find {st : DBState} {c : AppendCall}
    (htx : c.txOk = true) {session : AudioSession}
    (hf : findSession st c.sessionId = some session) :
    runAppend st c =
      { audioChunks := st.audioChunks ++
          [⟨c.id, c.sessionId, c.now, c.floats⟩],
        audioSessions := st.audioSessions.map (fun s =>
          if s.id == session.id then
            { session with chunkCount := session.chunkCount + 1,
                           totalSize := session.totalSize + c.floats.length,
                           chunkIds := session.chunkIds ++ [c.id] }
          else s) } := by
  unfold runAppend
  rw [if_pos htx, storeAudioChunk_eq_of_find hf]

theorem runAppend_eq_of_notfound {st : DBState} {c : AppendCall}
    (hf : findSession st c.sessionId = none) : runAppend st c = st := by
  unfold runAppend
  by_cases htx : c.txOk
  · rw [if_pos htx, storeAudioChunk, hf]
  · rw [if_neg htx]

theorem runAppend_chunks_mono (st : DBState) (c : AppendCall) :
    ∀ ch ∈ st.audioChunks, ch ∈ (runAppend st c).audioChunks := by
  intro ch hch
  by_cases htx : c.txOk
  · cases hf : findSession st c.sessionId with
    | none => rw [runAppend_eq_of_notfound hf]; exact hch
    | some session =>
        rw [runAppend_eq_of_find htx hf]
        exact List.mem_append_left _ hch
  · unfold runAppend
    rw [if_neg htx]
    exact hch

theorem runAppend_session_ids (st : DBState) (c : AppendCall) :
    ∀ s ∈ st.audioSessions,
      ∃ s' ∈ (runAppend st c).audioSessions, s'.id = s.id := by
  intro s hs
  by_cases htx : c.txOk
  · cases hf : findSession st c.sessionId with
    | none => rw [runAppend_eq_of_notfound hf]; exact ⟨s, hs, rfl⟩
    | some session =>
        rw [runAppend_eq_of_find htx hf]
        refine ⟨_, List.mem_map_of_mem _ hs, ?_⟩
        by_cases hcase : s.id = session.id
        · simp [hcase]
        · simp [hcase]
  · unfold runAppend
    rw [if_neg htx]
    exact ⟨s, hs, rfl⟩

/-- C5: when the final `concatMp3` rejects, `stopRecording` propagates the
rejection before ever reaching `deleteSession`: the store it leaves behind
is exactly the post-flush store — the session row (under its id) and every
previously stored chunk are still present, so the session remains
recoverable. -/
theorem stop_concat_failure_keeps_session (store : DBState)
    (flush : AppendCall) :
    stopRecordingStore store flush false = (runAppend store flush, false) ∧
    (∀ s ∈ store.audioSessions,
      ∃ s' ∈ (stopRecordingStore store flush false).1.audioSessions,
        s'.id = s.id) ∧
    (∀ ch ∈ store.audioChunks,
      ch ∈ (stopRecordingStore store flush false).1.audioChunks) := by
  have hfst : stopRecordingStore store flush false =
      (runAppend store flush, false) := by
    cases hf : findSession (runAppend store flush) flush.sessionId with
    | none => simp [stopRecordingStore, hf]
    | some s => simp [stopRecordingStore, hf]
  refine ⟨hfst, ?_, ?_⟩
  · rw [hfst]
    exact runAppend_session_ids store flush
  · rw [hfst]
    exact runAppend_chunks_mono store flush

/-- Witness for C5 at a concrete store: session `A`, one flushed chunk, and
a failing concatenation; the session row with id `A` survives. -/
theorem stop_concat_failure_keeps_session_witness :
    stopRecordingStore storeA
      ⟨"A", [5], "102-q", "2025-01-01T00:01:00.000Z", true⟩ false =
      (runAppend storeA
        ⟨"A", [5], "102-q", "2025-01-01T00:01:00.000Z", true⟩, false) ∧
    (∃ s' ∈ (stopRecordingStore storeA
        ⟨"A", [5], "102-q", "2025-01-01T00:01:00.000Z", true⟩
        false).1.audioSessions, s'.id = "A") := by
  have h := stop_concat_failure_keeps_session storeA
    ⟨"A", [5], "102-q", "2025-01-01T00:01:00.000Z", true⟩
  refine ⟨h.1, ?_⟩
  exact h.2.1 ⟨"A", "recording A", "2025-01-01T00:00:00.000Z", 0, 0, [],
    48000, 1⟩ (by decide)

theorem abort_store_eq (st : RecorderState) (b : Bool) :
    (abortRecording st b).store = st.store := by
  unfold abortRecording
  split_ifs <;> rfl

/-- C4 counterexample: the `abortRecording` implementations at
`useAudioRecording.ts:223` and (over its four resource references)
`audioRecoding.ts:497` throw `Error("invalid state")` when no recording is
active — both when called on an idle orchestrator and on the second of two
back-to-back calls, the first having cleared the recorder. -/
theorem abort_idle_throws :
    abortRecordingStrict idleRecorder = .error "invalid state" ∧
    Except.bind (abortRecordingStrict ⟨true, true, true, storeA⟩)
      (fun st => abortRecordingStrict st) = .error "invalid state" := by
  decide

/-- C4 amended: for the `abortRecording` at `useAudioRecording.ts:501-520`
the claim holds — called with no recorder initialized it returns without
error and without any state change, it never touches the persisted session
store (neither does a repeated call), and after a first effective call a
second call is the identity; the earlier variants
(`useAudioRecording.ts:223-239`, `audioRecoding.ts:497-536`) instead throw
an invalid-state error when no recorder is initialized. -/
theorem abort_idempotent (st : RecorderState) (b1 b2 : Bool) :
    (st.pcmRecorder = false → abortRecording st b1 = st) ∧
    (abortRecording st b1).store = st.store ∧
    (abortRecording (abortRecording st b1) b2).store = st.store ∧
    abortRecording (abortRecording st true) b2 = abortRecording st true := by
  refine ⟨?_, abort_store_eq st b1, ?_, ?_⟩
  · intro h
    simp [abortRecording, h]
  · rw [abort_store_eq, abort_store_eq]
  · by_cases h : st.pcmRecorder
    · have h1 : abortRecording st true =
          { st with isRecording := false, pcmRecorder := false,
                    timerRunning := false } := by
        simp [abortRecording, h]
      rw [h1]
      simp [abortRecording]
    · have h1 : abortRecording st true = st := by
        simp [abortRecording, h]
      rw [h1]
      simp [abortRecording, h]

/-- Witness for C4 at the idle orchestrator: aborting with nothing recording
is a no-op that throws nothing and leaves the store alone, twice over. -/
theorem abort_idempotent_witness :
    abortRecording idleRecorder true = idleRecorder ∧
    (abortRecording idleRecorder true).store = idleRecorder.store ∧
    (abortRecording (abortRecording idleRecorder true) true).store =
      idleRecorder.store ∧
    abortRecording (abortRecording idleRecorder true) true =
      abortRecording idleRecorder true :=
  ⟨(abort_idempotent idleRecorder true true).1 rfl,
   (abort_idempotent idleRecorder true true).2.1,
   (abort_idempotent idleRecorder true true).2.2.1,
   (abort_idempotent idleRecorder true true).2.2.2⟩

/-- C8: `concatMp3` on a one-element list returns that sole buffer's bytes
wrapped as the final blob, with an empty engine trace — no load, no write,
no exec of the multi-file concat path — so the content is the input chunk
itself. -/
theorem concat_single_shortcut (b : List Nat) (loadOk execOk : Bool)
    (deleteOk : String → Bool) (engineOut : List Nat) :
    concatMp3Run [b] loadOk execOk deleteOk engineOut = ([], .ok b) := rfl

/-- C9: for both `pcmToMp3` and `concatMp3`, on the success path and on the
failure path alike, every temporary name written during the operation gets a
delete attempt afterwards in the same run; both/all delete attempts are
present whatever subset of them fails, and the settled result never depends
on the deletions' outcomes; and when the engine's exec rejects, the caller
receives that rejection (after the cleanup attempts) rather than a
swallowed error. -/
theorem temp_cleanup_both_paths (sampleRate numChannels : Nat)
    (bufs : List (List Nat)) (loadOk writeOk execOk : Bool)
    (deleteOk : String → Bool) (engineOut : List Nat) :
    (∀ f, FSOp.write f ∈ (pcmToMp3Run sampleRate numChannels loadOk writeOk
        execOk deleteOk engineOut).1 →
      FSOp.delete f (deleteOk f) ∈ (pcmToMp3Run sampleRate numChannels
        loadOk writeOk execOk deleteOk engineOut).1) ∧
    (loadOk = true →
      FSOp.delete "input.pcm" (deleteOk "input.pcm") ∈
        (pcmToMp3Run sampleRate numChannels loadOk writeOk execOk deleteOk
          engineOut).1 ∧
      FSOp.delete "output.mp3" (deleteOk "output.mp3") ∈
        (pcmToMp3Run sampleRate numChannels loadOk writeOk execOk deleteOk
          engineOut).1) ∧
    ((pcmToMp3Run sampleRate numChannels loadOk writeOk execOk deleteOk
        engineOut).2 =
      (pcmToMp3Run sampleRate numChannels loadOk writeOk execOk
        (fun _ => true) engineOut).2) ∧
    (execOk = false →
      ∃ e, (pcmToMp3Run sampleRate numChannels loadOk writeOk execOk
        deleteOk engineOut).2 = .error e) ∧
    (∀ f, FSOp.write f ∈ (concatMp3Run bufs loadOk execOk deleteOk
        engineOut).1 →
      FSOp.delete f (deleteOk f) ∈ (concatMp3Run bufs loadOk execOk
        deleteOk engineOut).1) ∧
    ((concatMp3Run bufs loadOk execOk deleteOk engineOut).2 =
      (concatMp3Run bufs loadOk execOk (fun _ => true) engineOut).2) ∧
    (execOk = false → 2 ≤ bufs.length →
      ∃ e, (concatMp3Run bufs loadOk execOk deleteOk engineOut).2 =
        .error e) := by
  refine ⟨?_, ?_, ?_, ?_, ?_, ?_, ?_⟩
  · intro f hf
    cases loadOk <;> cases writeOk <;> cases execOk <;>
      simp [pcmToMp3Run] at hf ⊢ <;> simp [hf]
  · intro hl
    subst hl
    cases writeOk <;> cases execOk <;> simp [pcmToMp3Run]
  · cases loadOk <;> cases writeOk <;> cases execOk <;> simp [pcmToMp3Run]
  · intro he
    subst he
    cases loadOk <;> cases writeOk <;> simp [pcmToMp3Run]
  · intro f hf
    match bufs with
    | [] => simp [concatMp3Run] at hf
    | [b] => simp [concatMp3Run] at hf
    | b1 :: b2 :: rest =>
        cases loadOk with
        | false => simp [concatMp3Run] at hf
        | true =>
            cases execOk with
            | false =>
                simp [concatMp3Run] at hf ⊢
                rcases hf with hf | hf
                · exact Or.inl ⟨f, hf, rfl, rfl⟩
                · subst hf
                  exact Or.inr (Or.inl ⟨rfl, rfl⟩)
            | true =>
                simp [concatMp3Run] at hf ⊢
                rcases hf with hf | hf
                · exact Or.inl ⟨f, hf, rfl, rfl⟩
                · subst hf
                  exact Or.inr (Or.inl ⟨rfl, rfl⟩)
  · match bufs with
    | [] => rfl
    | [b] => rfl
    | b1 :: b2 :: rest =>
        cases loadOk <;> cases execOk <;> simp [concatMp3Run]
  · intro he hlen
    subst he
    match bufs with
    | [] => exact ⟨"No MP3 blobs provided", rfl⟩
    | [b] => simp at hlen
    | b1 :: b2 :: rest =>
        cases loadOk <;> simp [concatMp3Run]

/-- Witness for C9: a failing exec with every deletion also failing — both
cleanup attempts still appear in the trace and the engine error still
reaches the caller, for the encode and the concat path. -/
theorem temp_cleanup_both_paths_witness :
    FSOp.delete "input.pcm" false ∈
      (pcmToMp3Run 48000 1 true true false (fun _ => false) []).1 ∧
    FSOp.delete "output.mp3" false ∈
      (pcmToMp3Run 48000 1 true true false (fun _ => false) []).1 ∧
    (∃ e, (pcmToMp3Run 48000 1 true true false (fun _ => false) []).2 =
      .error e) ∧
    (∃ e, (concatMp3Run [[1], [2]] true false (fun _ => false) []).2 =
      .error e) := by
  have h := temp_cleanup_both_paths 48000 1 [[1], [2]] true true false
    (fun _ => false) []
  exact ⟨(h.2.1 rfl).1, (h.2.1 rfl).2, h.2.2.2.1 rfl,
    h.2.2.2.2.2.2 rfl (by decide)⟩

/-- C10: `pcmToMp3` fixes the encoded output at a 64k bitrate and a 16000 Hz
output sample rate: the output-option tail of the exec argument vector is
one constant list, whatever `sampleRate` and `numChannels` the caller passes
for the raw input, and the successful run execs exactly that vector. -/
theorem pcm_output_rate_fixed (sampleRate numChannels : Nat)
    (deleteOk : String → Bool) (engineOut : List Nat) :
    (pcmToMp3Args sampleRate numChannels).drop 8 =
      ["-codec:a", "libmp3lame", "-b:a", "64k", "-ar", "16000",
       "output.mp3"] ∧
    FSOp.exec (pcmToMp3Args sampleRate numChannels) ∈
      (pcmToMp3Run sampleRate numChannels true true true deleteOk
        engineOut).1 := by
  constructor
  · rfl
  · simp [pcmToMp3Run]

end AudioRecorder
